import Mathlib

/-!
Shallow embedding of `crypto/src/batch_contribution.rs` from the
kzg-ceremony-sequencer repository.

The file under verification orchestrates one participant's contribution to a
batch of powers-of-tau sub-ceremonies:

* `derive_taus` seeds a ChaCha20 generator with the secret entropy and draws
  one secret per contribution, passing each through the backend's
  `generate_tau`;
* `BatchContribution::add_entropy` zips the derived taus with the
  contributions and applies `Contribution::add_tau` to each, tagging a
  per-item failure with its index via `CeremoniesError::InvalidCeremony`;
* `BatchContribution::validate` runs `Contribution::validate` on each item
  with the same index-tagged error handling;
* `BatchContribution::receipt` collects the `pot_pubkey` field of every item;
* `get_pot_pubkeys` derives exactly 4 taus and, for each, applies the
  backend's `add_tau_g2` to the canonical accumulator `[G2::one(), G2::one()]`
  and keeps the second element.

Modelling choices:

* The `Engine` trait, `Contribution`, `Tau`, `G2`, `Identity`, `Entropy` and
  the backend error type live outside the file under verification, so they are
  abstract type parameters here; the operations the file invokes on them are
  bundled in an `Engine` structure of functions.  `G2::one()` and the
  `pot_pubkey` field accessor are part of that bundle because the carrier
  types are abstract.
* `ChaCha20Rng::from_seed(entropy)` followed by sequential `rng.gen()` draws
  is modelled as a pure deterministic stream `rngDraw : Entropy → Nat → S`
  giving the i-th value drawn after seeding with `entropy`; `from_seed` and
  `gen` are deterministic, so the i-th draw is a function of the seed alone.
* Rust `Result` is `Except`, in-place mutation is explicit state passing, and
  the `unwrap()` inside `get_pot_pubkeys` is modelled by `Option` (`none`
  standing for the panic).
* `rayon`'s `par_iter_mut().try_for_each` is modelled by a sequential fold.
  For the properties below this is faithful: on success every item is updated
  independently of scheduling, and when exactly one item fails, that item's
  index-tagged error is the only error any schedule can report.
-/

/-- The operations the orchestration code invokes on the pluggable backend and
on the abstract per-item `Contribution` state.  `S` is the fixed-size secret
drawn from the seeded generator, `Tau` the secret scalar, `G2` the group
element type, `C` the per-item `Contribution` state, `I` the participant
identity, `E` the backend error type. -/
structure Engine (S Tau G2 C I E : Type) where
  /-- `E::generate_tau`: derive a secret scalar from a drawn secret. -/
  generate_tau : S → Tau
  /-- `Contribution::add_tau::<E>`: apply a tau (with the identity) to one
  contribution, returning the updated contribution or a backend error. -/
  add_tau : C → Tau → I → Except E C
  /-- `Contribution::validate::<E>`: check one contribution, with mutable
  access to it (the returned value is the possibly-updated contribution). -/
  validate : C → Except E C
  /-- `E::add_tau_g2`: apply a tau to a `[G2; 2]` accumulator pair. -/
  add_tau_g2 : Tau → G2 × G2 → Except E (G2 × G2)
  /-- `G2::one()`. -/
  one : G2
  /-- The `pot_pubkey` field of a `Contribution`. -/
  pot_pubkey : C → G2

/-- `CeremoniesError`: the only variant the orchestration code constructs is
`InvalidCeremony(index, cause)`. -/
inductive CeremoniesError (E : Type) where
  | InvalidCeremony : Nat → E → CeremoniesError E
deriving DecidableEq

/-- `pub struct BatchContribution { contributions, ecdsa_signature }`. -/
structure BatchContribution (C Sig : Type) where
  contributions : List C
  ecdsa_signature : Sig
deriving DecidableEq

variable {S Tau G2 C I E En Sig Raw : Type}

/-- `fn derive_taus<E>(entropy, size)`: seed a ChaCha20 generator with the
entropy and draw `size` secrets in index order, feeding each through
`E::generate_tau`.  `rngDraw entropy i` is the i-th sequential draw of the
generator seeded by `entropy`. -/
def derive_taus (eng : Engine S Tau G2 C I E) (rngDraw : En → Nat → S)
    (entropy : En) (size : Nat) : List Tau :=
  (List.range size).map fun i => eng.generate_tau (rngDraw entropy i)

/-- The `try_for_each` loop of `add_entropy`: apply `add_tau` to each
(contribution, tau) pair, mapping a per-item error `e` at position `i` of the
iteration (starting from `start`) to `InvalidCeremony (start + offset) e`.
On success, returns the updated contributions in order. -/
def applyEach (eng : Engine S Tau G2 C I E) (identity : I) :
    Nat → List (C × Tau) → Except (CeremoniesError E) (List C)
  | _, [] => .ok []
  | i, (c, t) :: rest =>
    match eng.add_tau c t identity with
    | .error e => .error (.InvalidCeremony i e)
    | .ok c2 => (applyEach eng identity (i + 1) rest).map fun cs => c2 :: cs

/-- The zipped iterator of `add_entropy`:
`self.contributions.par_iter_mut().zip(&taus)` where
`taus = derive_taus(entropy, self.contributions.len())`. -/
def tauPairs (eng : Engine S Tau G2 C I E) (rngDraw : En → Nat → S)
    (entropy : En) (b : BatchContribution C Sig) : List (C × Tau) :=
  b.contributions.zip (derive_taus eng rngDraw entropy b.contributions.length)

/-- `BatchContribution::add_entropy`: derive one tau per contribution, zip
them with the contributions, apply each, and keep the signature field as it
was (the source never writes `ecdsa_signature`). -/
def BatchContribution.add_entropy (eng : Engine S Tau G2 C I E)
    (rngDraw : En → Nat → S) (b : BatchContribution C Sig) (entropy : En)
    (identity : I) : Except (CeremoniesError E) (BatchContribution C Sig) :=
  (applyEach eng identity 0 (tauPairs eng rngDraw entropy b)).map fun cs =>
    { contributions := cs, ecdsa_signature := b.ecdsa_signature }

/-- The `try_for_each` loop of `validate`: run the per-item check on each
contribution (which has mutable access to it), tagging a failure at iteration
offset `k` from `start` with index `start + k`. -/
def validateEach (eng : Engine S Tau G2 C I E) :
    Nat → List C → Except (CeremoniesError E) (List C)
  | _, [] => .ok []
  | i, c :: rest =>
    match eng.validate c with
    | .error e => .error (.InvalidCeremony i e)
    | .ok c2 => (validateEach eng (i + 1) rest).map fun cs => c2 :: cs

/-- `BatchContribution::validate`: per-item check over the contributions with
index-tagged errors; the signature field is untouched. -/
def BatchContribution.validate (eng : Engine S Tau G2 C I E)
    (b : BatchContribution C Sig) :
    Except (CeremoniesError E) (BatchContribution C Sig) :=
  (validateEach eng 0 b.contributions).map fun cs =>
    { contributions := cs, ecdsa_signature := b.ecdsa_signature }

/-- `BatchContribution::receipt`: the `pot_pubkey` of every contribution, in
item order.  Takes the batch immutably (`&self` in the source). -/
def BatchContribution.receipt (eng : Engine S Tau G2 C I E)
    (b : BatchContribution C Sig) : List G2 :=
  b.contributions.map eng.pot_pubkey

/-- The `map` body of `get_pot_pubkeys`: for each tau, apply `add_tau_g2` to
the canonical accumulator `(G2::one(), G2::one())` and keep the second
element; the source `unwrap()`s the backend result, so a backend error is a
panic, modelled as `none`. -/
def collectPubkeys (eng : Engine S Tau G2 C I E) :
    List Tau → Option (List G2)
  | [] => some []
  | t :: rest =>
    match eng.add_tau_g2 t (eng.one, eng.one) with
    | .error _ => none
    | .ok p => (collectPubkeys eng rest).map fun gs => p.2 :: gs

/-- `pub fn get_pot_pubkeys<E>(entropy)`: derive exactly 4 taus and compute
each one's pot pubkey against the canonical accumulator. -/
def get_pot_pubkeys (eng : Engine S Tau G2 C I E) (rngDraw : En → Nat → S)
    (entropy : En) : Option (List G2) :=
  collectPubkeys eng (derive_taus eng rngDraw entropy 4)

/-- Modelled from the spec: the deserializer for `BatchContribution` is
generated by serde from
`#[derive(Deserialize)] #[serde(deny_unknown_fields, rename_all = "camelCase")]`;
the generated code is not in the sources.  Per those attributes it reads the
fields of a record one by one, accepts exactly the names `contributions` and
`ecdsaSignature` (camelCase), fails on a duplicate, an unparsable value, a
missing field, or any unknown field name.  `pC`/`pS` parse the two field
values; `accC`/`accS` are the fields seen so far (both `none` at the start). -/
def deserialize_batch (pC : Raw → Option (List C)) (pS : Raw → Option Sig) :
    List (String × Raw) → Option (List C) → Option Sig →
    Option (BatchContribution C Sig)
  | [], some cs, some s => some ⟨cs, s⟩
  | [], some _, none => none
  | [], none, _ => none
  | (name, v) :: rest, accC, accS =>
    if name = "contributions" then
      match accC, pC v with
      | none, some cs => deserialize_batch pC pS rest (some cs) accS
      | _, _ => none
    else if name = "ecdsaSignature" then
      match accS, pS v with
      | none, some s => deserialize_batch pC pS rest accC (some s)
      | _, _ => none
    else none

/-! ### Concrete instantiation used by witnesses

A small executable engine over `Nat` carriers.  `add_tau` and the per-item
check fail exactly on the contribution value 99, so fault injection at a
chosen index is possible; on success `add_tau` folds the tau and the identity
into the state, the per-item check is read-only, and `add_tau_g2` multiplies
the second accumulator component by `tau + 1`. -/

def testEngine : Engine Nat Nat Nat Nat Nat Nat where
  generate_tau s := s
  add_tau c t identity := if c = 99 then .error 7 else .ok (c * (t + 1) + identity)
  validate c := if c = 99 then .error 5 else .ok c
  add_tau_g2 t p := .ok (p.1, p.2 * (t + 1))
  one := 1
  pot_pubkey c := c

/-- Deterministic stand-in for the seeded ChaCha20 draw stream. -/
def testRng : Nat → Nat → Nat := fun e i => e + i

/-- Trivial field-value parser for the witness of the deserializer claim. -/
def testParseContrs : Nat → Option (List Nat) := fun n => some [n]

/-- Trivial signature-value parser for the witness of the deserializer
claim. -/
def testParseSig : Nat → Option Nat := fun n => some n

/-! ### Helper lemmas -/

theorem except_isOk_map {α β ε : Type} (f : α → β) (x : Except ε α) :
    (x.map f).isOk = x.isOk := by
  cases x <;> rfl

theorem derive_taus_length (eng : Engine S Tau G2 C I E)
    (rngDraw : En → Nat → S) (entropy : En) (size : Nat) :
    (derive_taus eng rngDraw entropy size).length = size := by
  simp [derive_taus]

theorem applyEach_isOk_iff (eng : Engine S Tau G2 C I E) (identity : I)
    (ps : List (C × Tau)) :
    ∀ start : Nat,
      (applyEach eng identity start ps).isOk = true ↔
        ∀ p ∈ ps, (eng.add_tau p.1 p.2 identity).isOk = true := by
  induction ps with
  | nil => intro start; simp [applyEach, Except.isOk, Except.toBool]
  | cons p rest ih =>
    intro start
    obtain ⟨c, t⟩ := p
    simp only [applyEach]
    cases h : eng.add_tau c t identity with
    | error e => simp [Except.isOk, Except.toBool, h]
    | ok c2 =>
      rw [except_isOk_map, ih (start + 1)]
      simp [h, Except.isOk, Except.toBool]

theorem applyEach_error_at (eng : Engine S Tau G2 C I E) (identity : I)
    (ps : List (C × Tau)) :
    ∀ (start k : Nat) (hk : k < ps.length) (e : E),
      (∀ (j : Nat) (hj : j < ps.length), j ≠ k →
        (eng.add_tau (ps.get ⟨j, hj⟩).1 (ps.get ⟨j, hj⟩).2 identity).isOk = true) →
      eng.add_tau (ps.get ⟨k, hk⟩).1 (ps.get ⟨k, hk⟩).2 identity = .error e →
      applyEach eng identity start ps = .error (.InvalidCeremony (start + k) e) := by
  induction ps with
  | nil => intro start k hk; exact absurd hk (Nat.not_lt_zero k)
  | cons p rest ih =>
    intro start k hk e hok hfail
    obtain ⟨c, t⟩ := p
    cases k with
    | zero =>
      have hfail2 : eng.add_tau c t identity = .error e := hfail
      simp [applyEach, hfail2]
    | succ k2 =>
      have h0 : (eng.add_tau c t identity).isOk = true := hok 0 (Nat.succ_pos _) (by omega)
      cases hc : eng.add_tau c t identity with
      | error e2 => rw [hc] at h0; simp [Except.isOk, Except.toBool] at h0
      | ok c2 =>
        have hok2 : ∀ (j : Nat) (hj : j < rest.length), j ≠ k2 →
            (eng.add_tau (rest.get ⟨j, hj⟩).1 (rest.get ⟨j, hj⟩).2 identity).isOk = true := by
          intro j hj hne
          exact hok (j + 1) (Nat.succ_lt_succ hj) (by omega)
        have hfail2 : eng.add_tau (rest.get ⟨k2, Nat.lt_of_succ_lt_succ hk⟩).1
            (rest.get ⟨k2, Nat.lt_of_succ_lt_succ hk⟩).2 identity = .error e := hfail
        have hrest := ih (start + 1) k2 (Nat.lt_of_succ_lt_succ hk) e hok2 hfail2
        simp only [applyEach, hc, hrest]
        have harith : start + 1 + k2 = start + (k2 + 1) := by omega
        simp [Except.map, harith]

theorem validateEach_isOk_iff (eng : Engine S Tau G2 C I E) (cs : List C) :
    ∀ start : Nat,
      (validateEach eng start cs).isOk = true ↔
        ∀ c ∈ cs, (eng.validate c).isOk = true := by
  induction cs with
  | nil => intro start; simp [validateEach, Except.isOk, Except.toBool]
  | cons c rest ih =>
    intro start
    simp only [validateEach]
    cases h : eng.validate c with
    | error e => simp [Except.isOk, Except.toBool, h]
    | ok c2 =>
      rw [except_isOk_map, ih (start + 1)]
      simp [h, Except.isOk, Except.toBool]

theorem validateEach_error_at (eng : Engine S Tau G2 C I E) (cs : List C) :
    ∀ (start k : Nat) (hk : k < cs.length) (e : E),
      (∀ (j : Nat) (hj : j < cs.length), j ≠ k →
        (eng.validate (cs.get ⟨j, hj⟩)).isOk = true) →
      eng.validate (cs.get ⟨k, hk⟩) = .error e →
      validateEach eng start cs = .error (.InvalidCeremony (start + k) e) := by
  induction cs with
  | nil => intro start k hk; exact absurd hk (Nat.not_lt_zero k)
  | cons c rest ih =>
    intro start k hk e hok hfail
    cases k with
    | zero =>
      have hfail2 : eng.validate c = .error e := hfail
      simp [validateEach, hfail2]
    | succ k2 =>
      have h0 : (eng.validate c).isOk = true := hok 0 (Nat.succ_pos _) (by omega)
      cases hc : eng.validate c with
      | error e2 => rw [hc] at h0; simp [Except.isOk, Except.toBool] at h0
      | ok c2 =>
        have hok2 : ∀ (j : Nat) (hj : j < rest.length), j ≠ k2 →
            (eng.validate (rest.get ⟨j, hj⟩)).isOk = true := by
          intro j hj hne
          exact hok (j + 1) (Nat.succ_lt_succ hj) (by omega)
        have hfail2 : eng.validate (rest.get ⟨k2, Nat.lt_of_succ_lt_succ hk⟩) = .error e :=
          hfail
        have hrest := ih (start + 1) k2 (Nat.lt_of_succ_lt_succ hk) e hok2 hfail2
        simp only [validateEach, hc, hrest]
        have harith : start + 1 + k2 = start + (k2 + 1) := by omega
        simp [Except.map, harith]

theorem applyEach_ok_length (eng : Engine S Tau G2 C I E) (identity : I)
    (ps : List (C × Tau)) :
    ∀ (start : Nat) (cs : List C),
      applyEach eng identity start ps = .ok cs → cs.length = ps.length := by
  induction ps with
  | nil =>
    intro start cs h
    simp only [applyEach] at h
    cases h
    rfl
  | cons p rest ih =>
    intro start cs h
    obtain ⟨c, t⟩ := p
    simp only [applyEach] at h
    cases hc : eng.add_tau c t identity with
    | error e => rw [hc] at h; cases h
    | ok c2 =>
      rw [hc] at h
      cases hr : applyEach eng identity (start + 1) rest with
      | error e => rw [hr] at h; cases h
      | ok cs3 =>
        rw [hr] at h
        cases h
        simp [ih (start + 1) cs3 hr]

theorem validateEach_readonly (eng : Engine S Tau G2 C I E)
    (hRO : ∀ c c2, eng.validate c = .ok c2 → c2 = c) (cs : List C) :
    ∀ (start : Nat) (cs2 : List C),
      validateEach eng start cs = .ok cs2 → cs2 = cs := by
  induction cs with
  | nil =>
    intro start cs2 h
    simp only [validateEach] at h
    cases h
    rfl
  | cons c rest ih =>
    intro start cs2 h
    simp only [validateEach] at h
    cases hc : eng.validate c with
    | error e => rw [hc] at h; cases h
    | ok c2 =>
      rw [hc] at h
      cases hr : validateEach eng (start + 1) rest with
      | error e => rw [hr] at h; cases h
      | ok cs3 =>
        rw [hr] at h
        cases h
        rw [hRO c c2 hc, ih (start + 1) cs3 hr]

theorem collectPubkeys_isSome (eng : Engine S Tau G2 C I E) (ts : List Tau)
    (h : ∀ t ∈ ts, (eng.add_tau_g2 t (eng.one, eng.one)).isOk = true) :
    (collectPubkeys eng ts).isSome = true := by
  induction ts with
  | nil => simp [collectPubkeys]
  | cons t rest ih =>
    simp only [collectPubkeys]
    cases hc : eng.add_tau_g2 t (eng.one, eng.one) with
    | error e =>
      have := h t (by simp)
      rw [hc] at this
      simp [Except.isOk, Except.toBool] at this
    | ok p =>
      have hrest := ih fun t2 ht2 => h t2 (by simp [ht2])
      cases hr : collectPubkeys eng rest with
      | none => rw [hr] at hrest; simp at hrest
      | some gs => simp

theorem collectPubkeys_length (eng : Engine S Tau G2 C I E) (ts : List Tau) :
    ∀ gs : List G2, collectPubkeys eng ts = some gs → gs.length = ts.length := by
  induction ts with
  | nil =>
    intro gs h
    simp only [collectPubkeys] at h
    cases h
    rfl
  | cons t rest ih =>
    intro gs h
    simp only [collectPubkeys] at h
    cases hc : eng.add_tau_g2 t (eng.one, eng.one) with
    | error e => rw [hc] at h; cases h
    | ok p =>
      rw [hc] at h
      cases hr : collectPubkeys eng rest with
      | none => rw [hr] at h; cases h
      | some gs3 =>
        rw [hr] at h
        cases h
        simp [ih gs3 hr]

theorem preview_apply_aux (eng : Engine S Tau G2 C I E) (identity : I) (c0 : C)
    (H : ∀ t : Tau, ∃ c2 p, eng.add_tau c0 t identity = .ok c2 ∧
      eng.add_tau_g2 t (eng.one, eng.one) = .ok p ∧ eng.pot_pubkey c2 = p.2) :
    ∀ (ts : List Tau) (start : Nat),
      ∃ cs, applyEach eng identity start ((List.replicate ts.length c0).zip ts) = .ok cs ∧
        collectPubkeys eng ts = some (cs.map eng.pot_pubkey) := by
  intro ts
  induction ts with
  | nil => exact fun start => ⟨[], rfl, rfl⟩
  | cons t rest ih =>
    intro start
    obtain ⟨c2, p, h1, h2, h3⟩ := H t
    obtain ⟨cs, hcs, hcol⟩ := ih (start + 1)
    refine ⟨c2 :: cs, ?_, ?_⟩
    · simp only [List.length_cons, List.replicate_succ, List.zip_cons_cons]
      simp only [applyEach, h1, hcs]
      rfl
    · simp only [collectPubkeys, h2, hcol, List.map, h3]
      rfl

/-! ### Claim theorems -/

/-- C2: Tau derivation and batch apply are deterministic: for fixed entropy and
count, deriving the taus twice yields identical sequences, and running
`add_entropy` with the same entropy and identity on two independent copies of
the same initial batch yields identical results (in particular identical
public commitments in every item, compared via `receipt`). -/
theorem derive_and_apply_deterministic (eng : Engine S Tau G2 C I E)
    (rngDraw : En → Nat → S) (entropy : En) (n : Nat) (identity : I)
    (b1 b2 : BatchContribution C Sig) (hcopy : b1 = b2) :
    derive_taus eng rngDraw entropy n = derive_taus eng rngDraw entropy n ∧
    b1.add_entropy eng rngDraw entropy identity =
      b2.add_entropy eng rngDraw entropy identity ∧
    (b1.add_entropy eng rngDraw entropy identity).map (BatchContribution.receipt eng) =
      (b2.add_entropy eng rngDraw entropy identity).map (BatchContribution.receipt eng) := by
  subst hcopy
  exact ⟨rfl, rfl, rfl⟩

/-- Witness for C2 at a concrete engine, entropy and batch. -/
theorem derive_and_apply_deterministic_witness :
    derive_taus testEngine testRng 3 2 = derive_taus testEngine testRng 3 2 ∧
    BatchContribution.add_entropy testEngine testRng ⟨[1, 2], 0⟩ 3 0 =
      BatchContribution.add_entropy testEngine testRng ⟨[1, 2], 0⟩ 3 0 ∧
    (BatchContribution.add_entropy testEngine testRng ⟨[1, 2], 0⟩ 3 0).map
        (BatchContribution.receipt testEngine) =
      (BatchContribution.add_entropy testEngine testRng ⟨[1, 2], 0⟩ 3 0).map
        (BatchContribution.receipt testEngine) :=
  derive_and_apply_deterministic testEngine testRng 3 2 0 ⟨[1, 2], 0⟩ ⟨[1, 2], 0⟩ rfl

/-- C5: the standalone preview is infallible: whenever the backend's
`add_tau_g2` succeeds on the canonical identity accumulator (the spec's
contract for §4.5, the backends themselves being external), `get_pot_pubkeys`
reaches no panic: the internal `unwrap` (modelled as `Option`) never sees an
error value, for every entropy. -/
theorem get_pot_pubkeys_infallible (eng : Engine S Tau G2 C I E)
    (rngDraw : En → Nat → S) (entropy : En)
    (h : ∀ t : Tau, (eng.add_tau_g2 t (eng.one, eng.one)).isOk = true) :
    (get_pot_pubkeys eng rngDraw entropy).isSome = true := by
  unfold get_pot_pubkeys
  exact collectPubkeys_isSome eng _ fun t _ => h t

/-- Witness for C5 at a concrete engine and entropy. -/
theorem get_pot_pubkeys_infallible_witness :
    (get_pot_pubkeys testEngine testRng 0).isSome = true :=
  get_pot_pubkeys_infallible testEngine testRng 0 fun _ => rfl

/-- C6: `receipt` returns exactly one public commitment per item, the element
at index i being the `pot_pubkey` stored in item i, in item order; it is a
pure function of the batch (the source takes `&self`), so the batch is not
mutated and no secret material is involved. -/
theorem receipt_correct (eng : Engine S Tau G2 C I E)
    (b : BatchContribution C Sig) :
    (b.receipt eng).length = b.contributions.length ∧
    ∀ i : Nat, (b.receipt eng)[i]? = (b.contributions[i]?).map eng.pot_pubkey := by
  constructor
  · simp [BatchContribution.receipt]
  · intro i
    simp [BatchContribution.receipt]

/-- C9: whenever `get_pot_pubkeys` returns (i.e. does not panic), it returns
exactly 4 public group elements, for every engine, entropy and draw stream:
the tau count is the hard-coded constant 4. -/
theorem get_pot_pubkeys_length_four (eng : Engine S Tau G2 C I E)
    (rngDraw : En → Nat → S) (entropy : En) (l : List G2)
    (h : get_pot_pubkeys eng rngDraw entropy = some l) : l.length = 4 := by
  unfold get_pot_pubkeys at h
  rw [collectPubkeys_length eng _ l h, derive_taus_length]

/-- Witness for C9 at a concrete engine and entropy. -/
theorem get_pot_pubkeys_length_four_witness : ([1, 2, 3, 4] : List Nat).length = 4 :=
  get_pot_pubkeys_length_four testEngine testRng 0 [1, 2, 3, 4] rfl

/-- C10: on a batch with zero contributions, `add_entropy` and `validate`
both succeed and leave the batch unchanged (no taus are consumed, no error
can be reported). -/
theorem empty_batch_noop (eng : Engine S Tau G2 C I E) (rngDraw : En → Nat → S)
    (entropy : En) (identity : I) (b : BatchContribution C Sig)
    (h : b.contributions = []) :
    b.add_entropy eng rngDraw entropy identity = .ok b ∧ b.validate eng = .ok b := by
  obtain ⟨cs, s⟩ := b
  have h2 : cs = [] := h
  subst h2
  exact ⟨rfl, rfl⟩

/-- Witness for C10 at a concrete engine and empty batch. -/
theorem empty_batch_noop_witness :
    BatchContribution.add_entropy testEngine testRng ⟨[], 5⟩ 0 0 =
      .ok (⟨[], 5⟩ : BatchContribution Nat Nat) ∧
    BatchContribution.validate testEngine ⟨[], 5⟩ =
      .ok (⟨[], 5⟩ : BatchContribution Nat Nat) :=
  empty_batch_noop testEngine testRng 0 0 ⟨[], 5⟩ rfl

/-- C1 counterexample: `add_entropy` does not attach or update the batch's
signature.  Two batches identical except for their stale `ecdsa_signature`
values (10 vs 20), updated with the same entropy and identity, both succeed
and keep their distinct stale signatures — impossible if the signature were
recomputed under the given identity from the updated contributions.  A third
run with a different identity changes only the contributions, never the
signature. -/
theorem add_entropy_no_signature_update_cex :
    BatchContribution.add_entropy testEngine testRng ⟨[1, 2], 10⟩ 0 0 =
      .ok (⟨[1, 4], 10⟩ : BatchContribution Nat Nat) ∧
    BatchContribution.add_entropy testEngine testRng ⟨[1, 2], 20⟩ 0 0 =
      .ok (⟨[1, 4], 20⟩ : BatchContribution Nat Nat) ∧
    BatchContribution.add_entropy testEngine testRng ⟨[1, 2], 10⟩ 0 5 =
      .ok (⟨[6, 9], 10⟩ : BatchContribution Nat Nat) ∧
    (10 : Nat) ≠ 20 :=
  ⟨rfl, rfl, rfl, by decide⟩

/-- C1 (amended): a successful call to `add_entropy` updates the
contributions (passing the identity to each item's backend apply) and leaves
the batch's `ecdsa_signature` field unchanged: no signature is computed or
stored by the core's `add_entropy`. -/
theorem add_entropy_preserves_signature (eng : Engine S Tau G2 C I E)
    (rngDraw : En → Nat → S) (entropy : En) (identity : I)
    (b b2 : BatchContribution C Sig)
    (h : b.add_entropy eng rngDraw entropy identity = .ok b2) :
    b2.ecdsa_signature = b.ecdsa_signature ∧
    b2.contributions.length = b.contributions.length := by
  unfold BatchContribution.add_entropy at h
  cases hr : applyEach eng identity 0 (tauPairs eng rngDraw entropy b) with
  | error e => rw [hr] at h; cases h
  | ok cs =>
    rw [hr] at h
    cases h
    refine ⟨rfl, ?_⟩
    have hlen := applyEach_ok_length eng identity _ 0 cs hr
    rw [hlen]
    simp [tauPairs, derive_taus_length]

/-- Witness for the amended C1 at a concrete engine and batch. -/
theorem add_entropy_preserves_signature_witness :
    (10 : Nat) = 10 ∧ ([1, 4] : List Nat).length = ([1, 2] : List Nat).length :=
  add_entropy_preserves_signature testEngine testRng 0 0 ⟨[1, 2], 10⟩ ⟨[1, 4], 10⟩ rfl

/-- C7: validation is read-only on success.  The per-item
`Contribution::validate` is outside the file under verification; the spec
requires it not to alter any contribution's cryptographic content on a
successful check, which is the hypothesis `hRO`.  Under it, a successful
batch `validate` returns the batch unchanged (contributions and signature),
and running `validate` again yields the same successful result — hence
identical serialized output. -/
theorem validate_read_only_on_success (eng : Engine S Tau G2 C I E)
    (hRO : ∀ c c2, eng.validate c = .ok c2 → c2 = c)
    (b b2 : BatchContribution C Sig)
    (h : b.validate eng = .ok b2) :
    b2 = b ∧ b2.validate eng = .ok b2 := by
  obtain ⟨cs, s⟩ := b
  unfold BatchContribution.validate at h ⊢
  cases hr : validateEach eng 0 cs with
  | error e => rw [hr] at h; cases h
  | ok cs2 =>
    rw [hr] at h
    cases h
    have hcs : cs2 = cs := validateEach_readonly eng hRO cs 0 cs2 hr
    subst hcs
    rw [hr]
    exact ⟨rfl, rfl⟩

/-- Witness for C7 at a concrete engine (whose per-item check is read-only on
success) and a concrete valid batch. -/
theorem validate_read_only_on_success_witness :
    (⟨[1, 2], 0⟩ : BatchContribution Nat Nat) = ⟨[1, 2], 0⟩ ∧
    BatchContribution.validate testEngine ⟨[1, 2], 0⟩ =
      .ok (⟨[1, 2], 0⟩ : BatchContribution Nat Nat) :=
  validate_read_only_on_success testEngine
    (fun c c2 hc => by
      by_cases h99 : c = 99
      · rw [show testEngine.validate c = .error 5 by simp [testEngine, h99]] at hc
        cases hc
      · rw [show testEngine.validate c = .ok c by simp [testEngine, h99]] at hc
        cases hc
        rfl)
    ⟨[1, 2], 0⟩ ⟨[1, 2], 0⟩ rfl

/-- C3: index-faithful error reporting.  (1) If exactly item k of the zipped
(contribution, tau) pairs fails its `add_tau` step, `add_entropy` returns
`InvalidCeremony k cause` carrying the underlying backend error; (2)
`add_entropy` succeeds iff every item's `add_tau` succeeds; (3)/(4) the same
two statements for `validate` and the per-item check.  With exactly one
failing item this matches the parallel code: that item's tagged error is the
only error any schedule can produce. -/
theorem index_faithful_errors (eng : Engine S Tau G2 C I E)
    (rngDraw : En → Nat → S) (entropy : En) (identity : I)
    (b : BatchContribution C Sig) :
    (∀ (k : Nat) (e : E) (hk : k < (tauPairs eng rngDraw entropy b).length),
      (∀ (j : Nat) (hj : j < (tauPairs eng rngDraw entropy b).length), j ≠ k →
        (eng.add_tau ((tauPairs eng rngDraw entropy b).get ⟨j, hj⟩).1
          ((tauPairs eng rngDraw entropy b).get ⟨j, hj⟩).2 identity).isOk = true) →
      eng.add_tau ((tauPairs eng rngDraw entropy b).get ⟨k, hk⟩).1
        ((tauPairs eng rngDraw entropy b).get ⟨k, hk⟩).2 identity = .error e →
      b.add_entropy eng rngDraw entropy identity = .error (.InvalidCeremony k e)) ∧
    ((b.add_entropy eng rngDraw entropy identity).isOk = true ↔
      ∀ p ∈ tauPairs eng rngDraw entropy b, (eng.add_tau p.1 p.2 identity).isOk = true) ∧
    (∀ (k : Nat) (e : E) (hk : k < b.contributions.length),
      (∀ (j : Nat) (hj : j < b.contributions.length), j ≠ k →
        (eng.validate (b.contributions.get ⟨j, hj⟩)).isOk = true) →
      eng.validate (b.contributions.get ⟨k, hk⟩) = .error e →
      b.validate eng = .error (.InvalidCeremony k e)) ∧
    ((b.validate eng).isOk = true ↔
      ∀ c ∈ b.contributions, (eng.validate c).isOk = true) := by
  refine ⟨?_, ?_, ?_, ?_⟩
  · intro k e hk hok hfail
    unfold BatchContribution.add_entropy
    rw [applyEach_error_at eng identity _ 0 k hk e hok hfail]
    simp [Except.map]
  · unfold BatchContribution.add_entropy
    rw [except_isOk_map]
    exact applyEach_isOk_iff eng identity _ 0
  · intro k e hk hok hfail
    unfold BatchContribution.validate
    rw [validateEach_error_at eng _ 0 k hk e hok hfail]
    simp [Except.map]
  · unfold BatchContribution.validate
    rw [except_isOk_map]
    exact validateEach_isOk_iff eng _ 0

/-- Witness for C3: a 3-item batch whose middle item (k = 1) is the only one
failing apply (backend error 7) and the only one failing the per-item check
(backend error 5): both operations report index 1 with the underlying
cause. -/
theorem index_faithful_errors_witness :
    BatchContribution.add_entropy testEngine testRng ⟨[1, 99, 3], 0⟩ 0 0 =
      .error (.InvalidCeremony 1 7) ∧
    BatchContribution.validate testEngine ⟨[1, 99, 3], 0⟩ =
      .error (.InvalidCeremony 1 5) :=
  ⟨(index_faithful_errors testEngine testRng 0 0 ⟨[1, 99, 3], 0⟩).1 1 7
      (by decide) (by decide) rfl,
    (index_faithful_errors testEngine testRng 0 0 ⟨[1, 99, 3], 0⟩).2.2.1 1 5
      (by decide) (by decide) rfl⟩

/-- C4: the standalone preview matches the full ceremony.  The relation
between `Contribution::add_tau` and the backend's `add_tau_g2` on a
freshly-initialized canonical contribution `c0` lives outside the file under
verification; hypothesis `H` states it as the spec does: applying a tau to a
fresh canonical contribution succeeds and stores as `pot_pubkey` exactly the
element `add_tau_g2` computes from the canonical identity accumulator.  Under
it, for every entropy, `get_pot_pubkeys` returns element for element, in
order, the commitments obtained by `add_entropy` followed by `receipt` on a
freshly-initialized canonical batch of size 4 with the same entropy. -/
theorem preview_matches_full_ceremony (eng : Engine S Tau G2 C I E)
    (rngDraw : En → Nat → S) (entropy : En) (identity : I) (c0 : C) (s : Sig)
    (H : ∀ t : Tau, ∃ c2 p, eng.add_tau c0 t identity = .ok c2 ∧
      eng.add_tau_g2 t (eng.one, eng.one) = .ok p ∧ eng.pot_pubkey c2 = p.2) :
    ∃ b2 : BatchContribution C Sig,
      BatchContribution.add_entropy eng rngDraw ⟨List.replicate 4 c0, s⟩ entropy identity =
        .ok b2 ∧
      get_pot_pubkeys eng rngDraw entropy = some (b2.receipt eng) := by
  obtain ⟨cs, hcs, hcol⟩ :=
    preview_apply_aux eng identity c0 H (derive_taus eng rngDraw entropy 4) 0
  rw [derive_taus_length] at hcs
  refine ⟨⟨cs, s⟩, ?_, ?_⟩
  · unfold BatchContribution.add_entropy
    have hpairs : tauPairs eng rngDraw entropy
        (⟨List.replicate 4 c0, s⟩ : BatchContribution C Sig) =
        (List.replicate 4 c0).zip (derive_taus eng rngDraw entropy 4) := by
      simp [tauPairs]
    rw [hpairs, hcs]
    rfl
  · unfold get_pot_pubkeys BatchContribution.receipt
    exact hcol

/-- Witness for C4 at a concrete engine whose canonical contribution is
`c0 = 1`: the preview equals the receipt of the updated canonical batch. -/
theorem preview_matches_full_ceremony_witness :
    ∃ b2 : BatchContribution Nat Nat,
      BatchContribution.add_entropy testEngine testRng ⟨List.replicate 4 1, 0⟩ 0 0 =
        .ok b2 ∧
      get_pot_pubkeys testEngine testRng 0 = some (b2.receipt testEngine) :=
  preview_matches_full_ceremony testEngine testRng 0 0 1 0
    fun t => ⟨1 * (t + 1) + 0, (1, 1 * (t + 1)), rfl, rfl, rfl⟩

/-- C8: strict deserialization schema.  Any serialized record containing a
field whose name is not in the `BatchContribution` schema (`contributions`
plus the one signature record `ecdsaSignature`) is rejected by the
deserializer — for any field-value parsers and any accumulated state — rather
than silently accepted or ignored. -/
theorem deserialize_rejects_unknown_fields (pC : Raw → Option (List C))
    (pS : Raw → Option Sig) :
    ∀ (fields : List (String × Raw)),
      (∃ p ∈ fields, p.1 ≠ "contributions" ∧ p.1 ≠ "ecdsaSignature") →
      ∀ (accC : Option (List C)) (accS : Option Sig),
        deserialize_batch pC pS fields accC accS = none := by
  intro fields
  induction fields with
  | nil => intro h; simp at h
  | cons f rest ih =>
    intro h accC accS
    obtain ⟨p, hp, hne1, hne2⟩ := h
    obtain ⟨name, v⟩ := f
    rcases List.mem_cons.mp hp with heq | hmem
    · subst heq
      simp only [deserialize_batch]
      rw [if_neg hne1, if_neg hne2]
    · by_cases h1 : name = "contributions"
      · subst h1
        simp only [deserialize_batch, if_pos rfl]
        cases accC with
        | none =>
          cases hc : pC v with
          | none => rfl
          | some cs => exact ih ⟨p, hmem, hne1, hne2⟩ (some cs) accS
        | some cs0 =>
          cases hc : pC v with
          | none => rfl
          | some cs => rfl
      · by_cases h2 : name = "ecdsaSignature"
        · subst h2
          simp only [deserialize_batch, if_neg h1, if_pos rfl]
          cases accS with
          | none =>
            cases hc : pS v with
            | none => rfl
            | some s => exact ih ⟨p, hmem, hne1, hne2⟩ accC (some s)
          | some s0 =>
            cases hc : pS v with
            | none => rfl
            | some s => rfl
        · simp only [deserialize_batch]
          rw [if_neg h1, if_neg h2]

/-- Witness for C8: a record with the valid `contributions` field followed by
an unknown field `extra` is rejected. -/
theorem deserialize_rejects_unknown_fields_witness :
    deserialize_batch testParseContrs testParseSig
      [("contributions", 1), ("extra", 2)] none none = none :=
  deserialize_rejects_unknown_fields testParseContrs testParseSig
    [("contributions", 1), ("extra", 2)] (by decide) none none
